import Mathlib

/-!
Shallow embedding of wave.h from the simple-wave repository: an MS Wave
(.wav) chunk parser/writer (classes Chunk, RiffChunk, FmtChunk, DataChunk,
Wave) together with its normalized sample access layer.

Modelling conventions:
* Machine integers are `Nat` with an explicit `% 2^w` wherever the source's
  fixed width can matter (`unsigned`/`uint32_t` is 32 bits, `uint16_t` 16
  bits, `unsigned long long` 64 bits).
* A byte stream is a list of byte values plus a health flag mirroring the
  `std::istream` state: reading past the end delivers the remaining bytes
  and leaves the stream failed, and a failed stream delivers nothing.
* IEEE doubles are modelled as exact rationals; the conversion from double
  to `unsigned long long` is truncation toward zero, which is what C++
  guarantees on the in-range values the theorems below use.
* Uninitialized memory (the contents of a fresh `new char[n]` buffer, and
  bytes a failed read leaves untouched) is represented by an explicit
  oracle argument `fresh : Nat → Nat`, one arbitrary byte per position.
* File opening and closing is I/O outside the embedding; `Wave::Load`,
  `Wave::LoadMetadata` and `Wave::Save` are modelled from the point where
  they hold an open stream, i.e. by the private helper
  `Wave::Load(std::ifstream&, std::string const&, bool)` and by the byte
  list `Save` writes.
-/

namespace SimpleWave

/-- Chunk::CHUNK_TYPE_RIFF, the characters "RIFF" read little-endian. -/
def CHUNK_TYPE_RIFF : Nat := 0x46464952

/-- Chunk::CHUNK_TYPE_FMT, the characters "fmt " read little-endian. -/
def CHUNK_TYPE_FMT : Nat := 0x20746d66

/-- Chunk::CHUNK_TYPE_DATA, the characters "data" read little-endian. -/
def CHUNK_TYPE_DATA : Nat := 0x61746164

/-- RiffChunk::RIFF_TYPE_WAVE, the characters "WAVE" read little-endian. -/
def RIFF_TYPE_WAVE : Nat := 0x45564157

/-- Chunk::DEFAULT_CHUNK_SIZE_FMT. -/
def DEFAULT_CHUNK_SIZE_FMT : Nat := 16

/-- Chunk::DEFAULT_CHUNK_SIZE_DATA. -/
def DEFAULT_CHUNK_SIZE_DATA : Nat := 0

/-- Chunk::DEFAULT_CHUNK_SIZE_RIFF = 4 + 8 + 16 + 8 + 0 = 36. -/
def DEFAULT_CHUNK_SIZE_RIFF : Nat :=
  4 + 8 + DEFAULT_CHUNK_SIZE_FMT + 8 + DEFAULT_CHUNK_SIZE_DATA

/-- Input byte stream: remaining bytes plus the `std::istream` health flag. -/
structure IStream where
  buf : List Nat
  good : Bool
deriving DecidableEq

/-- stream.read(out, n): the bytes obtained and the stream afterwards.
Obtaining fewer than n bytes leaves the stream failed; a failed stream
delivers nothing. -/
def IStream.readBytes (s : IStream) (n : Nat) : List Nat × IStream :=
  if s.good then
    if n ≤ s.buf.length then (s.buf.take n, ⟨s.buf.drop n, true⟩)
    else (s.buf, ⟨[], false⟩)
  else ([], s)

/-- stream.ignore(n), as used by DataChunk::Skip. -/
def IStream.ignoreN (s : IStream) (n : Nat) : IStream :=
  if s.good then
    if n ≤ s.buf.length then ⟨s.buf.drop n, true⟩ else ⟨[], false⟩
  else s

/-- Little-endian accumulation loop shared by ReadLittleEndian and
Wave::GetValue: `answer |= byte_i << 8*i` for i below sz, each byte passing
through the `(unsigned char)` cast, hence the `% 256`.  Positions beyond the
supplied list stand for memory the source reads without it having been
written (a failed one-byte read, or an out-of-bounds pointer); the model
supplies 0 there, and every theorem below only relies on values whose bytes
were actually supplied. -/
def leAccum (things : List Nat) (sz : Nat) : Nat :=
  (List.range sz).foldl (fun acc i => acc ||| ((things.getD i 0 % 256) <<< (8 * i))) 0

/-- ReadLittleEndian for a width-n unsigned integer. -/
def readLittleEndian (s : IStream) (n : Nat) : Nat × IStream :=
  let p := s.readBytes n
  (leAccum p.1 n, p.2)

/-- WriteLittleEndian byte sequence: byte i is `(out >> 8*i) & 0xff`,
transmitted for i ascending. -/
def leOut (v n : Nat) : List Nat :=
  (List.range n).map (fun i => v / 2 ^ (8 * i) % 256)

/-- WriteLittleEndian appended to an output stream. -/
def writeLittleEndian (out : List Nat) (v n : Nat) : List Nat := out ++ leOut v n

/-- RiffChunk data: the common Chunk fields chunk_type/chunk_size with
chunk_type fixed to CHUNK_TYPE_RIFF, plus riff_type. -/
structure RiffChunk where
  chunk_size : Nat
  riff_type : Nat
deriving DecidableEq

/-- FmtChunk data (chunk_type is fixed to CHUNK_TYPE_FMT). -/
structure FmtChunk where
  chunk_size : Nat
  compression : Nat
  nchannels : Nat
  sample_rate : Nat
  bytes_per_sec : Nat
  block_align : Nat
  bits_per_sample : Nat
deriving DecidableEq

/-- DataChunk data: the Chunk fields plus the owned buffer `data_` and its
allocated length `data_length_`.  A NULL `data_` is the empty list. -/
structure DataChunk where
  chunk_type : Nat
  chunk_size : Nat
  data_length_ : Nat
  data_ : List Nat
deriving DecidableEq

/-- Chunk size defaults chosen by the protected Chunk constructor switch. -/
def defaultChunkSizeFor (t : Nat) : Nat :=
  if t = CHUNK_TYPE_RIFF then DEFAULT_CHUNK_SIZE_RIFF
  else if t = CHUNK_TYPE_FMT then DEFAULT_CHUNK_SIZE_FMT
  else if t = CHUNK_TYPE_DATA then DEFAULT_CHUNK_SIZE_DATA
  else 0

/-- RiffChunk default constructor. -/
def RiffChunk.init : RiffChunk := ⟨DEFAULT_CHUNK_SIZE_RIFF, RIFF_TYPE_WAVE⟩

/-- FmtChunk default constructor: compression none, 1 channel, 22050 Hz,
16 bits per sample, derived block_align 2 and bytes_per_sec 44100. -/
def FmtChunk.init : FmtChunk := ⟨DEFAULT_CHUNK_SIZE_FMT, 1, 1, 22050, 44100, 2, 16⟩

/-- DataChunk(uint32_t chunk_type) constructor: no buffer yet. -/
def DataChunk.mk0 (t : Nat) : DataChunk := ⟨t, defaultChunkSizeFor t, 0, []⟩

/-- DataChunk default constructor. -/
def DataChunk.init : DataChunk := DataChunk.mk0 CHUNK_TYPE_DATA

/-- Chunk::ReadFrom: reads chunk_size only (the tag was consumed by the
dispatcher). -/
def chunkReadSize (s : IStream) : Nat × IStream := readLittleEndian s 4

/-- Chunk::WriteTo: tag then declared size. -/
def chunkWriteTo (out : List Nat) (ty sz : Nat) : List Nat :=
  writeLittleEndian (writeLittleEndian out ty 4) sz 4

/-- RiffChunk::ReadFrom: Chunk::ReadFrom then the riff type. -/
def RiffChunk.ReadFrom (c : RiffChunk) (s : IStream) : RiffChunk × IStream :=
  let p := chunkReadSize s
  let q := readLittleEndian p.2 4
  ({ c with chunk_size := p.1, riff_type := q.1 }, q.2)

/-- RiffChunk::WriteTo: Chunk::WriteTo then the riff type. -/
def RiffChunk.WriteTo (c : RiffChunk) (out : List Nat) : List Nat :=
  writeLittleEndian (chunkWriteTo out CHUNK_TYPE_RIFF c.chunk_size) c.riff_type 4

/-- FmtChunk::ReadFrom: Chunk::ReadFrom then the six format fields.  The
compression warning it may print is console output with no state effect. -/
def FmtChunk.ReadFrom (f : FmtChunk) (s : IStream) : FmtChunk × IStream :=
  let p0 := chunkReadSize s
  let p1 := readLittleEndian p0.2 2
  let p2 := readLittleEndian p1.2 2
  let p3 := readLittleEndian p2.2 4
  let p4 := readLittleEndian p3.2 4
  let p5 := readLittleEndian p4.2 2
  let p6 := readLittleEndian p5.2 2
  ({ f with chunk_size := p0.1, compression := p1.1, nchannels := p2.1,
            sample_rate := p3.1, bytes_per_sec := p4.1, block_align := p5.1,
            bits_per_sample := p6.1 }, p6.2)

/-- FmtChunk::WriteTo: Chunk::WriteTo then the six format fields. -/
def FmtChunk.WriteTo (f : FmtChunk) (out : List Nat) : List Nat :=
  let out := chunkWriteTo out CHUNK_TYPE_FMT f.chunk_size
  let out := writeLittleEndian out f.compression 2
  let out := writeLittleEndian out f.nchannels 2
  let out := writeLittleEndian out f.sample_rate 4
  let out := writeLittleEndian out f.bytes_per_sec 4
  let out := writeLittleEndian out f.block_align 2
  writeLittleEndian out f.bits_per_sample 2

/-- DataChunk::ReAllocData on unsigned 32-bit arithmetic:
`data_length_ = chunk_size = length; data_length_ += chunk_size % 2;`
then, when the resulting length is nonzero, a fresh uninitialized buffer is
allocated (contents given by the oracle, one byte per position) and, when
chunk_size is odd, its final padding byte is set to zero. -/
def DataChunk.ReAllocData (c : DataChunk) (len : Nat) (fresh : Nat → Nat) : DataChunk :=
  let cs := len % 2 ^ 32
  let dl := (cs + cs % 2) % 2 ^ 32
  let buf : List Nat :=
    if dl = 0 then []
    else
      let b := (List.range dl).map (fun i => fresh i % 256)
      if cs % 2 = 1 then b.set (dl - 1) 0 else b
  { c with chunk_size := cs, data_length_ := dl, data_ := buf }

/-- DataChunk::ReadFrom: Chunk::ReadFrom (the declared size), ReAllocData,
then `stream.read(data_, data_length_)`, which fills the buffer from the
front and leaves any unfilled tail as allocated. -/
def DataChunk.ReadFrom (c : DataChunk) (fresh : Nat → Nat) (s : IStream) : DataChunk × IStream :=
  let p := chunkReadSize s
  let c1 := c.ReAllocData p.1 fresh
  let q := p.2.readBytes c1.data_length_
  ({ c1 with data_ := q.1 ++ c1.data_.drop q.1.length }, q.2)

/-- DataChunk::Skip: ReAllocData(0), Chunk::ReadFrom, then advance the
stream past the word-aligned payload without allocating. -/
def DataChunk.Skip (c : DataChunk) (s : IStream) : DataChunk × IStream :=
  let c0 := c.ReAllocData 0 (fun _ => 0)
  let p := chunkReadSize s
  let c1 := { c0 with chunk_size := p.1, data_length_ := (p.1 + p.1 % 2) % 2 ^ 32 }
  (c1, p.2.ignoreN c1.data_length_)

/-- DataChunk::WriteTo: Chunk::WriteTo then `stream.write(data_,
data_length_)`.  (When the buffer is shorter than data_length_, as after
Skip, the source would write unowned memory; the model writes the owned
bytes, and every theorem about WriteTo assumes the buffer matches.) -/
def DataChunk.WriteTo (c : DataChunk) (out : List Nat) : List Nat :=
  chunkWriteTo out c.chunk_type c.chunk_size ++ c.data_.take c.data_length_

/-- Wave: the container owning the three known chunks and the ordered
vector of unrecognized chunks. -/
structure Wave where
  riff_chunk : RiffChunk
  fmt_chunk : FmtChunk
  data_chunk : DataChunk
  other_chunks : List DataChunk
deriving DecidableEq

/-- Wave default constructor. -/
def Wave.init : Wave := ⟨RiffChunk.init, FmtChunk.init, DataChunk.init, []⟩

/-- Wave::bytes_per_sample. -/
def Wave.bytes_per_sample (w : Wave) : Nat := w.fmt_chunk.block_align

/-- Wave::bytes_per_sample_slice. -/
def Wave.bytes_per_sample_slice (w : Wave) : Nat := w.fmt_chunk.bits_per_sample / 8

/-- Wave::nsamples: 0 when either the data size or the sample width is 0,
otherwise the quotient. -/
def Wave.nsamples (w : Wave) : Nat :=
  if w.data_chunk.chunk_size = 0 ∨ w.bytes_per_sample = 0 then 0
  else w.data_chunk.chunk_size / w.bytes_per_sample

/-- Wave::max_thing_value: the loop ORing a 0xff byte into each lane. -/
def Wave.max_thing_value (sz : Nat) : Nat :=
  (List.range sz).foldl (fun a i => a ||| (0xff <<< (8 * i))) 0

/-- Wave::max_signed_value = `~(1 << (sz*8-1)) & max_thing_value(sz)` at the
intended 64-bit width (for sz above 4 the source shifts an `int`, formally
narrower; the 64-bit reading is the one its uses rely on). -/
def Wave.max_signed_value (sz : Nat) : Nat :=
  ((2 ^ 64 - 1) ^^^ ((1 <<< (8 * sz - 1)) % 2 ^ 64)) &&& Wave.max_thing_value sz

/-- The two's-complement rebiasing step appearing verbatim in both
Wave::GetValue and Wave::PutChannelAvg, on unsigned 64-bit arithmetic. -/
def Wave.signedMunge (sz x : Nat) : Nat :=
  if x > Wave.max_signed_value sz then x - (Wave.max_signed_value sz + 1)
  else (x + (Wave.max_signed_value sz + 1)) % 2 ^ 64

/-- Wave::GetValue: assemble the little-endian unsigned value, then rebias
when the value is signed. -/
def Wave.GetValue (things : List Nat) (sizeof_thing : Nat) (thing_is_signed : Bool) : Nat :=
  let answer := leAccum things sizeof_thing
  if thing_is_signed then Wave.signedMunge sizeof_thing answer else answer

/-- Accumulation loop of Wave::TakeChannelAvg on an unsigned 64-bit total. -/
def Wave.channelTotal (things : List Nat) (nthings sizeof_thing : Nat) (sg : Bool) : Nat :=
  (List.range nthings).foldl
    (fun t i => (t + Wave.GetValue (things.drop (i * sizeof_thing)) sizeof_thing sg) % 2 ^ 64) 0

/-- Wave::TakeChannelAvg: total, average over the channels, then the linear
map into [-1, 1].  (With nthings = 0 the source divides 0.0 by 0.0 giving
NaN; the rational model yields 0 there, and no theorem relies on it.) -/
def Wave.TakeChannelAvg (things : List Nat) (nthings sizeof_thing : Nat) (sg : Bool) : ℚ :=
  let total := Wave.channelTotal things nthings sizeof_thing sg
  let average : ℚ := (total : ℚ) / (nthings : ℚ)
  average / (Wave.max_thing_value sizeof_thing : ℚ) * 2 - 1

/-- Conversion from double to unsigned long long: truncation toward zero.
Outside [0, 2^64) the source conversion is undefined behavior; the model
clamps below zero and wraps at 2^64, and every theorem stays in range. -/
def truncToU64 (q : ℚ) : Nat := (⌊q⌋).toNat % 2 ^ 64

/-- The scaling step of Wave::PutChannelAvg:
`(value+1.0)/2.0 * max_thing_value(sizeof_thing)` cast to unsigned. -/
def Wave.encRawValue (value : ℚ) (sizeof_thing : Nat) : Nat :=
  truncToU64 ((value + 1) / 2 * (Wave.max_thing_value sizeof_thing : ℚ))

/-- The inner byte-scatter loop of Wave::PutChannelAvg:
`things[j + i*sizeof_thing] = thing >> 8*j`, with the store into a char
keeping the low byte; the pointer is modelled as list plus base offset. -/
def Wave.putBytes (things : List Nat) (base thing sizeof_thing : Nat) : List Nat :=
  (List.range sizeof_thing).foldl
    (fun d j => d.set (base + j) ((thing >>> (8 * j)) % 256)) things

/-- Wave::PutChannelAvg: scale, rebias when signed, then scatter the same
encoded value into every channel slice. -/
def Wave.PutChannelAvg (value : ℚ) (things : List Nat) (base : Nat)
    (nthings sizeof_thing : Nat) (thing_is_signed : Bool) : List Nat :=
  let thing0 := Wave.encRawValue value sizeof_thing
  let thing := if thing_is_signed then Wave.signedMunge sizeof_thing thing0 else thing0
  (List.range nthings).foldl
    (fun d i => Wave.putBytes d (base + i * sizeof_thing) thing sizeof_thing) things

/-- Wave::GetSample: bounds check, then decode the slices at the offset,
unsigned for 1-byte slices and signed otherwise. -/
def Wave.GetSample (w : Wave) (offset : Nat) : ℚ :=
  if w.nsamples ≤ offset then 0
  else
    let segment := w.data_chunk.data_.drop (offset * w.bytes_per_sample)
    if w.bytes_per_sample_slice = 1 then
      Wave.TakeChannelAvg segment w.fmt_chunk.nchannels w.bytes_per_sample_slice false
    else
      Wave.TakeChannelAvg segment w.fmt_chunk.nchannels w.bytes_per_sample_slice true

/-- Wave::SetSample: bounds check, then encode into every channel slice. -/
def Wave.SetSample (w : Wave) (offset : Nat) (value : ℚ) : Wave :=
  if w.nsamples ≤ offset then w
  else
    let base := offset * w.bytes_per_sample
    let d :=
      if w.bytes_per_sample_slice = 1 then
        Wave.PutChannelAvg value w.data_chunk.data_ base w.fmt_chunk.nchannels
          w.bytes_per_sample_slice false
      else
        Wave.PutChannelAvg value w.data_chunk.data_ base w.fmt_chunk.nchannels
          w.bytes_per_sample_slice true
    { w with data_chunk := { w.data_chunk with data_ := d } }

/-- Wave::UpdateRiffFileSize on an unsigned 32-bit accumulator. -/
def Wave.UpdateRiffFileSize (w : Wave) : Wave :=
  let total : Nat := 8 * 3
  let total := (total + 4) % 2 ^ 32
  let total := (total + w.fmt_chunk.chunk_size) % 2 ^ 32
  let total := (total + w.data_chunk.chunk_size) % 2 ^ 32
  let total := w.other_chunks.foldl (fun t c => (t + c.chunk_size) % 2 ^ 32) total
  { w with riff_chunk := { w.riff_chunk with chunk_size := total } }

/-- Wave::UpdateFmtValues.  bytes_per_sec is a uint32_t and block_align a
uint16_t, so each product truncates at its own store width. -/
def Wave.UpdateFmtValues (w : Wave) : Wave :=
  let f := w.fmt_chunk
  let f := { f with bytes_per_sec := f.sample_rate * f.nchannels * (f.bits_per_sample / 8) % 2 ^ 32 }
  let f := { f with block_align := f.nchannels * (f.bits_per_sample / 8) % 2 ^ 16 }
  { w with fmt_chunk := f }

/-- The bookkeeping Wave::Save performs before writing anything:
UpdateRiffFileSize then UpdateFmtValues. -/
def Wave.SavePrep (w : Wave) : Wave := w.UpdateRiffFileSize.UpdateFmtValues

/-- Wave::Save after its stream opened successfully: the byte list written,
in source order riff, fmt, every other chunk, then the data chunk. -/
def Wave.Save (w : Wave) : List Nat :=
  let w := w.SavePrep
  let out := w.riff_chunk.WriteTo []
  let out := w.fmt_chunk.WriteTo out
  let out := w.other_chunks.foldl (fun o c => c.WriteTo o) out
  w.data_chunk.WriteTo out

/-- Wave::Resize: UpdateFmtValues, then reallocate the data chunk for
`new_nsamples * bytes_per_sample()` (unsigned 32-bit product). -/
def Wave.Resize (w : Wave) (new_nsamples : Nat) (fresh : Nat → Nat) : Wave :=
  let w := w.UpdateFmtValues
  { w with data_chunk := w.data_chunk.ReAllocData (new_nsamples * w.bytes_per_sample % 2 ^ 32) fresh }

/-- The chunk-dispatch while loop of the private Wave::Load helper, with
explicit fuel standing for the loop's termination on stream exhaustion:
every iteration that recurses has consumed at least the four tag bytes of
the finite stream, so any fuel of at least `buf.length + 1` reproduces the
loop exactly. -/
def Wave.loadLoop : Nat → Wave → (Nat → Nat) → Bool → IStream → Wave × IStream
  | 0, w, _, _, s => (w, s)
  | fuel + 1, w, fresh, load_data, s =>
    if s.good = false then (w, s)
    else
      let p := readLittleEndian s 4
      if p.2.good = false then (w, p.2)
      else if p.1 = CHUNK_TYPE_FMT then
        let q := w.fmt_chunk.ReadFrom p.2
        Wave.loadLoop fuel { w with fmt_chunk := q.1 } fresh load_data q.2
      else if p.1 = CHUNK_TYPE_DATA then
        let q := if load_data then w.data_chunk.ReadFrom fresh p.2 else w.data_chunk.Skip p.2
        Wave.loadLoop fuel { w with data_chunk := q.1 } fresh load_data q.2
      else
        let q := (DataChunk.mk0 p.1).ReadFrom fresh p.2
        Wave.loadLoop fuel { w with other_chunks := w.other_chunks ++ [q.1] } fresh load_data q.2

/-- The private Wave::Load(std::ifstream&, std::string const&, bool) helper
shared by Load (load_data = true) and LoadMetadata (load_data = false), from
the point where the stream is open: check the RIFF tag, read the riff
chunk, check the WAVE tag and stream health, then run the dispatch loop. -/
def Wave.Load (w : Wave) (fresh : Nat → Nat) (load_data : Bool) (s : IStream) : Wave × IStream :=
  let p := readLittleEndian s 4
  if p.1 ≠ CHUNK_TYPE_RIFF then (w, p.2)
  else
    let q := w.riff_chunk.ReadFrom p.2
    let w1 := { w with riff_chunk := q.1 }
    if q.1.riff_type ≠ RIFF_TYPE_WAVE ∨ q.2.good = false then (w1, q.2)
    else Wave.loadLoop (q.2.buf.length + 1) w1 fresh load_data q.2

/-! Concrete instances used by the theorems below: a zero memory oracle,
sample waves exercising particular format fields, and byte streams
exercising particular load paths. -/

/-- A memory oracle handing out zero bytes. -/
def fresh0 : Nat → Nat := fun _ => 0

/-- A 2-channel, 16-bit wave holding one sample of four zero bytes. -/
def wTwoChannel : Wave :=
  { riff_chunk := RiffChunk.init
    fmt_chunk := { chunk_size := 16, compression := 1, nchannels := 2, sample_rate := 22050,
                   bytes_per_sec := 88200, block_align := 4, bits_per_sample := 16 }
    data_chunk := { chunk_type := CHUNK_TYPE_DATA, chunk_size := 4, data_length_ := 4,
                    data_ := [0, 0, 0, 0] }
    other_chunks := [] }

/-- A wave whose channel count times slice width overflows the 16-bit
block_align field: 8192 channels of 64-bit samples. -/
def wManyChannels : Wave :=
  { riff_chunk := RiffChunk.init
    fmt_chunk := { chunk_size := 16, compression := 1, nchannels := 8192, sample_rate := 1,
                   bytes_per_sec := 0, block_align := 2, bits_per_sample := 64 }
    data_chunk := DataChunk.init
    other_chunks := [] }

/-- A wave whose data size drives the riff size sum past 32 bits. -/
def wHugeData : Wave :=
  { riff_chunk := RiffChunk.init
    fmt_chunk := FmtChunk.init
    data_chunk := { DataChunk.init with chunk_size := 2 ^ 32 - 16 }
    other_chunks := [] }

/-- A chunk body stream declaring 3 payload bytes, followed by the payload
1, 2, 3 and a nonzero alignment pad byte 7. -/
def sOddPad : IStream := ⟨leOut 3 4 ++ [1, 2, 3, 7], true⟩

/-- A stream whose outer four-byte marker is zeroes rather than "RIFF",
then a declared size of 99 and a well-formed "WAVE" tag. -/
def sBadMarker : IStream := ⟨[0, 0, 0, 0] ++ leOut 99 4 ++ [0x57, 0x41, 0x56, 0x45], true⟩

/-- A stream opening with "RIFF" and a declared size of 99, whose
format-family tag is zeroes rather than "WAVE". -/
def sNotWave : IStream := ⟨[0x52, 0x49, 0x46, 0x46] ++ leOut 99 4 ++ [0, 0, 0, 0], true⟩

/-- A well-formed file whose unrecognized "LIST" chunk comes after the
"data" chunk: RIFF header, fmt chunk, 2-byte data chunk, then a 1-byte
LIST chunk with its pad byte. -/
def demoStream : IStream :=
  ⟨[0x52, 0x49, 0x46, 0x46] ++ leOut 36 4 ++ [0x57, 0x41, 0x56, 0x45]
    ++ [0x66, 0x6d, 0x74, 0x20] ++ leOut 16 4
    ++ [1, 0, 1, 0, 0x22, 0x56, 0, 0, 0x44, 0xAC, 0, 0, 2, 0, 16, 0]
    ++ [0x64, 0x61, 0x74, 0x61] ++ leOut 2 4 ++ [5, 6]
    ++ [0x4c, 0x49, 0x53, 0x54] ++ leOut 1 4 ++ [9, 0], true⟩

/-- The container demoStream loads to. -/
def demoLoaded : Wave := (Wave.init.Load fresh0 true demoStream).1

/-- The riff section bytes Save emits for demoLoaded: "RIFF", the updated
size 47 = 24 + 4 + 16 + 2 + 1, "WAVE". -/
def demoRiffBytes : List Nat := [0x52, 0x49, 0x46, 0x46] ++ leOut 47 4 ++ [0x57, 0x41, 0x56, 0x45]

/-- The format section bytes Save emits for demoLoaded. -/
def demoFmtBytes : List Nat :=
  [0x66, 0x6d, 0x74, 0x20] ++ leOut 16 4
    ++ [1, 0, 1, 0, 0x22, 0x56, 0, 0, 0x44, 0xAC, 0, 0, 2, 0, 16, 0]

/-- The unrecognized-chunk bytes Save emits for demoLoaded. -/
def demoListBytes : List Nat := [0x4c, 0x49, 0x53, 0x54] ++ leOut 1 4 ++ [9, 0]

/-- The data section bytes Save emits for demoLoaded. -/
def demoDataBytes : List Nat := [0x64, 0x61, 0x74, 0x61] ++ leOut 2 4 ++ [5, 6]

end SimpleWave

/-! Helper lemmas about the byte-level arithmetic. -/

namespace SimpleWave


/-- ORing a value into bit lanes strictly above a small value is addition. -/
lemma lor_mul_two_pow_eq_add {a : Nat} (b k : Nat) (h : a < 2 ^ k) :
    a ||| b * 2 ^ k = a + b * 2 ^ k := by
  apply Nat.eq_of_testBit_eq
  intro j
  rw [Nat.testBit_or]
  rcases Nat.lt_or_ge j k with hj | hj
  · have hb : Nat.testBit (b * 2 ^ k) j = false := by
      rw [← Nat.shiftLeft_eq, Nat.testBit_shiftLeft]
      simp [Nat.not_le_of_lt hj]
    have hsplit : (2:Nat) ^ k = 2 ^ (k - j - 1) * 2 * 2 ^ j := by
      calc (2:Nat) ^ k = 2 ^ (k - j - 1 + 1 + j) := by congr 1; omega
        _ = 2 ^ (k - j - 1) * 2 * 2 ^ j := by rw [pow_add, pow_succ]
    have hsum : Nat.testBit (a + b * 2 ^ k) j = Nat.testBit a j := by
      rw [Nat.testBit_to_div_mod, Nat.testBit_to_div_mod]
      have h1 : a + b * 2 ^ k = a + (b * (2 ^ (k - j - 1) * 2)) * 2 ^ j := by
        rw [hsplit]; ring
      rw [h1, Nat.add_mul_div_right _ _ (Nat.two_pow_pos j)]
      have h2 : b * (2 ^ (k - j - 1) * 2) = 2 * (b * 2 ^ (k - j - 1)) := by ring
      rw [h2]
      apply decide_eq_decide.mpr
      omega
    rw [hb, hsum]
    simp
  · have ha : Nat.testBit a j = false :=
      Nat.testBit_lt_two_pow (lt_of_lt_of_le h (Nat.pow_le_pow_right (by omega) hj))
    have hsum : Nat.testBit (a + b * 2 ^ k) j = Nat.testBit (b * 2 ^ k) j := by
      rw [Nat.testBit_to_div_mod, Nat.testBit_to_div_mod]
      have h2j : (2:Nat) ^ j = 2 ^ k * 2 ^ (j - k) := by
        rw [← pow_add]; congr 1; omega
      have hq : (a + b * 2 ^ k) / 2 ^ j = b * 2 ^ k / 2 ^ j := by
        rw [h2j, ← Nat.div_div_eq_div_mul, ← Nat.div_div_eq_div_mul]
        have e1 : (a + b * 2 ^ k) / 2 ^ k = b := by
          rw [Nat.add_mul_div_right _ _ (Nat.two_pow_pos k), Nat.div_eq_of_lt h]
          omega
        have e2 : b * 2 ^ k / 2 ^ k = b := Nat.mul_div_cancel b (Nat.two_pow_pos k)
        rw [e1, e2]
      rw [hq]
    rw [ha, hsum]
    simp

/-- Unfolding one step of the little-endian accumulation loop. -/
lemma leAccum_succ (things : List Nat) (n : Nat) :
    leAccum things (n + 1)
      = leAccum things n ||| ((things.getD n 0 % 256) <<< (8 * n)) := by
  unfold leAccum
  rw [List.range_succ, List.foldl_append]
  rfl

/-- The assembled value fits in its byte width. -/
lemma leAccum_lt (things : List Nat) (sz : Nat) : leAccum things sz < 2 ^ (8 * sz) := by
  induction sz with
  | zero => simp [leAccum]
  | succ n ih =>
    rw [leAccum_succ]
    apply Nat.or_lt_two_pow
    · exact lt_of_lt_of_le ih (Nat.pow_le_pow_right (by omega) (by omega))
    · rw [Nat.shiftLeft_eq]
      calc things.getD n 0 % 256 * 2 ^ (8 * n)
          < 256 * 2 ^ (8 * n) :=
            Nat.mul_lt_mul_of_lt_of_le (Nat.mod_lt _ (by omega)) (le_refl _)
              (Nat.two_pow_pos (8 * n))
        _ ≤ 2 ^ (8 * (n + 1)) := by
            rw [show (256:Nat) = 2 ^ 8 by norm_num, ← pow_add]
            apply Nat.pow_le_pow_right (by omega)
            omega

/-- Reassembling the little-endian digits of t recovers t modulo the width. -/
lemma leAccum_digits (things : List Nat) (sz : Nat) (t : Nat)
    (h : ∀ j, j < sz → things.getD j 0 = t / 2 ^ (8 * j) % 256) :
    leAccum things sz = t % 2 ^ (8 * sz) := by
  induction sz with
  | zero => simp [leAccum, Nat.mod_one]
  | succ n ih =>
    rw [leAccum_succ, ih (fun j hj => h j (by omega)), h n (by omega)]
    have hmm : t / 2 ^ (8 * n) % 256 % 256 = t / 2 ^ (8 * n) % 256 := by omega
    rw [hmm, Nat.shiftLeft_eq]
    rw [lor_mul_two_pow_eq_add _ _ (Nat.mod_lt _ (Nat.two_pow_pos (8 * n)))]
    have hpow : (2:Nat) ^ (8 * (n + 1)) = 2 ^ (8 * n) * 256 := by
      rw [show 8 * (n + 1) = 8 * n + 8 by omega, pow_add]
      norm_num
    rw [hpow, Nat.mod_mul]
    ring

/-- Closed form of Wave::max_thing_value: all-ones across the width. -/
lemma max_thing_value_eq (sz : Nat) : Wave.max_thing_value sz = 2 ^ (8 * sz) - 1 := by
  induction sz with
  | zero => simp [Wave.max_thing_value]
  | succ n ih =>
    have hstep : Wave.max_thing_value (n + 1)
        = Wave.max_thing_value n ||| (0xff <<< (8 * n)) := by
      unfold Wave.max_thing_value
      rw [List.range_succ, List.foldl_append]
      rfl
    rw [hstep, ih, Nat.shiftLeft_eq]
    rw [lor_mul_two_pow_eq_add _ _ (by have := Nat.two_pow_pos (8 * n); omega)]
    have hpow : (2:Nat) ^ (8 * (n + 1)) = 2 ^ (8 * n) * 256 := by
      rw [show 8 * (n + 1) = 8 * n + 8 by omega, pow_add]
      norm_num
    have := Nat.two_pow_pos (8 * n)
    rw [hpow]
    omega

/-- Closed form of Wave::max_signed_value on the slice widths the sample
codec can meet: the largest signed value of the width. -/
lemma max_signed_value_eq (sz : Nat) (h1 : 1 ≤ sz) (h8 : sz ≤ 8) :
    Wave.max_signed_value sz = 2 ^ (8 * sz - 1) - 1 := by
  interval_cases sz <;> decide

/-- The rebiasing step keeps values inside the slice width. -/
lemma signedMunge_le (sz x : Nat) (h1 : 1 ≤ sz) (h8 : sz ≤ 8)
    (hx : x ≤ 2 ^ (8 * sz) - 1) :
    Wave.signedMunge sz x ≤ 2 ^ (8 * sz) - 1 := by
  have hms := max_signed_value_eq sz h1 h8
  have hsplit : 2 ^ (8 * sz) = 2 * 2 ^ (8 * sz - 1) := by
    rw [← pow_succ']
    congr 1
    omega
  have h64 : 2 ^ (8 * sz) ≤ 2 ^ 64 := Nat.pow_le_pow_right (by omega) (by omega)
  have hp : (0:Nat) < 2 ^ (8 * sz - 1) := Nat.two_pow_pos _
  have h64' : (2:Nat) ^ 64 = 2 ^ 64 := rfl
  unfold Wave.signedMunge
  rw [hms]
  split
  · omega
  · rw [Nat.mod_eq_of_lt (by omega)]
    omega

/-- The rebiasing step is an involution on the slice width. -/
lemma signedMunge_involution (sz x : Nat) (h1 : 1 ≤ sz) (h8 : sz ≤ 8)
    (hx : x ≤ 2 ^ (8 * sz) - 1) :
    Wave.signedMunge sz (Wave.signedMunge sz x) = x := by
  have hms := max_signed_value_eq sz h1 h8
  have hsplit : 2 ^ (8 * sz) = 2 * 2 ^ (8 * sz - 1) := by
    rw [← pow_succ']
    congr 1
    omega
  have h64 : 2 ^ (8 * sz) ≤ 2 ^ 64 := Nat.pow_le_pow_right (by omega) (by omega)
  have hp : (0:Nat) < 2 ^ (8 * sz - 1) := Nat.two_pow_pos _
  unfold Wave.signedMunge
  rw [hms]
  split
  · split
    · omega
    · rw [Nat.mod_eq_of_lt (by omega)]
      omega
  · rw [Nat.mod_eq_of_lt (by omega)]
    split
    · omega
    · omega

/-- Wave::GetValue stays inside the slice width. -/
lemma GetValue_le (things : List Nat) (sz : Nat) (sg : Bool) (h1 : 1 ≤ sz) (h8 : sz ≤ 8) :
    Wave.GetValue things sz sg ≤ 2 ^ (8 * sz) - 1 := by
  have hraw := leAccum_lt things sz
  unfold Wave.GetValue
  cases sg with
  | false => simpa using Nat.le_sub_one_of_lt hraw
  | true =>
    simp only
    exact signedMunge_le sz _ h1 h8 (Nat.le_sub_one_of_lt hraw)

/-- Indexing with a default commutes with drop. -/
lemma getD_drop (l : List Nat) (n m : Nat) :
    (l.drop n).getD m 0 = l.getD (n + m) 0 := by
  simp [List.getD_eq_getElem?_getD, List.getElem?_drop]

/-- The byte-scatter loop leaves positions outside its window unchanged. -/
lemma putBytes_getD_outside (d : List Nat) (base thing sz q : Nat)
    (hq : q < base ∨ base + sz ≤ q) :
    (Wave.putBytes d base thing sz).getD q 0 = d.getD q 0 := by
  induction sz with
  | zero => rfl
  | succ n ih =>
    have hstep : Wave.putBytes d base thing (n + 1)
        = (Wave.putBytes d base thing n).set (base + n) (thing >>> (8 * n) % 256) := by
      unfold Wave.putBytes
      rw [List.range_succ, List.foldl_append]
      rfl
    rw [hstep]
    have hne : base + n ≠ q := by omega
    rw [List.getD_eq_getElem?_getD, List.getElem?_set_ne hne,
        ← List.getD_eq_getElem?_getD]
    exact ih (by omega)

/-- The byte-scatter loop preserves the buffer length. -/
lemma putBytes_length (d : List Nat) (base thing sz : Nat) :
    (Wave.putBytes d base thing sz).length = d.length := by
  induction sz with
  | zero => rfl
  | succ n ih =>
    have hstep : Wave.putBytes d base thing (n + 1)
        = (Wave.putBytes d base thing n).set (base + n) (thing >>> (8 * n) % 256) := by
      unfold Wave.putBytes
      rw [List.range_succ, List.foldl_append]
      rfl
    rw [hstep, List.length_set, ih]

/-- Reading back a position the byte-scatter loop wrote yields the digit. -/
lemma putBytes_getD_inside (d : List Nat) (base thing sz j : Nat)
    (hj : j < sz) (hlen : base + j < d.length) :
    (Wave.putBytes d base thing sz).getD (base + j) 0 = thing >>> (8 * j) % 256 := by
  induction sz with
  | zero => omega
  | succ n ih =>
    have hstep : Wave.putBytes d base thing (n + 1)
        = (Wave.putBytes d base thing n).set (base + n) (thing >>> (8 * n) % 256) := by
      unfold Wave.putBytes
      rw [List.range_succ, List.foldl_append]
      rfl
    rw [hstep]
    rcases Nat.lt_or_ge j n with hjn | hjn
    · have hne : base + n ≠ base + j := by omega
      rw [List.getD_eq_getElem?_getD, List.getElem?_set_ne hne,
          ← List.getD_eq_getElem?_getD]
      exact ih hjn
    · have hj' : j = n := by omega
      subst hj'
      rw [List.getD_eq_getElem?_getD,
          List.getElem?_set_self (by rw [putBytes_length]; exact hlen)]
      rfl

/-- Accumulating with a running remainder equals the remainder of the sum. -/
lemma foldl_add_mod {α : Type} (M : Nat) (f : α → Nat) :
    ∀ (l : List α) (t : Nat), 0 < M → t < M →
      l.foldl (fun t c => (t + f c) % M) t = (t + (l.map f).sum) % M
  | [], t, _, ht => by simpa using (Nat.mod_eq_of_lt ht).symm
  | c :: l, t, hM, ht => by
    simp only [List.foldl_cons, List.map_cons, List.sum_cons]
    rw [foldl_add_mod M f l _ hM (Nat.mod_lt _ hM)]
    conv_lhs => rw [Nat.add_mod]
    conv_rhs => rw [← Nat.add_assoc, Nat.add_mod (t + f c)]
    rw [Nat.mod_mod]

/-- A sum of list-mapped values, each bounded, is bounded by count times
the bound. -/
lemma sum_map_le {α : Type} (f : α → Nat) (c : Nat) :
    ∀ (l : List α), (∀ x ∈ l, f x ≤ c) → (l.map f).sum ≤ l.length * c
  | [], _ => by simp
  | x :: l, h => by
    simp only [List.map_cons, List.sum_cons, List.length_cons]
    have h1 := h x (by simp)
    have h2 := sum_map_le f c l (fun y hy => h y (by simp [hy]))
    calc f x + (l.map f).sum ≤ c + l.length * c := by omega
      _ = (l.length + 1) * c := by ring

/-- RiffChunk::WriteTo only appends. -/
lemma RiffChunk_WriteTo_append (c : RiffChunk) (out : List Nat) :
    c.WriteTo out = out ++ c.WriteTo [] := by
  simp [RiffChunk.WriteTo, chunkWriteTo, writeLittleEndian]

/-- FmtChunk::WriteTo only appends. -/
lemma FmtChunk_WriteTo_append (f : FmtChunk) (out : List Nat) :
    f.WriteTo out = out ++ f.WriteTo [] := by
  simp [FmtChunk.WriteTo, chunkWriteTo, writeLittleEndian]

/-- DataChunk::WriteTo only appends. -/
lemma DataChunk_WriteTo_append (c : DataChunk) (out : List Nat) :
    c.WriteTo out = out ++ c.WriteTo [] := by
  simp [DataChunk.WriteTo, chunkWriteTo, writeLittleEndian]

/-- Writing a list of chunks in a row appends their individual outputs. -/
lemma foldl_WriteTo (l : List DataChunk) :
    ∀ out : List Nat,
      l.foldl (fun o c => c.WriteTo o) out = out ++ (l.map (fun c => c.WriteTo [])).flatten := by
  induction l with
  | nil => intro out; simp
  | cons c l ih =>
    intro out
    simp only [List.foldl_cons, List.map_cons, List.flatten_cons]
    rw [ih, DataChunk_WriteTo_append]
    simp [List.append_assoc]

/-- Wave::Save unfolded into the four write phases in source order. -/
lemma Save_eq (w : Wave) :
    w.Save = w.SavePrep.riff_chunk.WriteTo []
      ++ w.SavePrep.fmt_chunk.WriteTo []
      ++ (w.SavePrep.other_chunks.map (fun c => c.WriteTo [])).flatten
      ++ w.SavePrep.data_chunk.WriteTo [] := by
  show (w.SavePrep.data_chunk.WriteTo
      (w.SavePrep.other_chunks.foldl (fun o c => c.WriteTo o)
        (w.SavePrep.fmt_chunk.WriteTo (w.SavePrep.riff_chunk.WriteTo [])))) = _
  rw [DataChunk_WriteTo_append, foldl_WriteTo, FmtChunk_WriteTo_append]

/-- SavePrep does not touch the data chunk. -/
lemma SavePrep_data (w : Wave) : w.SavePrep.data_chunk = w.data_chunk := rfl

/-- SavePrep does not touch the extra chunks. -/
lemma SavePrep_other (w : Wave) : w.SavePrep.other_chunks = w.other_chunks := rfl

/-- SavePrep recomputes the format fields from the original format chunk. -/
lemma SavePrep_fmt (w : Wave) : w.SavePrep.fmt_chunk = w.UpdateFmtValues.fmt_chunk := rfl

/-- SavePrep computes the riff size from the original chunk sizes. -/
lemma SavePrep_riff (w : Wave) : w.SavePrep.riff_chunk = w.UpdateRiffFileSize.riff_chunk := rfl

/-- The riff size loop in closed form. -/
lemma UpdateRiffFileSize_size (w : Wave) :
    w.UpdateRiffFileSize.riff_chunk.chunk_size
      = (24 + 4 + w.fmt_chunk.chunk_size + w.data_chunk.chunk_size
          + (w.other_chunks.map (fun c => c.chunk_size)).sum) % 2 ^ 32 := by
  unfold Wave.UpdateRiffFileSize
  simp only
  rw [foldl_add_mod _ _ _ _ (by norm_num) (Nat.mod_lt _ (by norm_num))]
  have heta : w.other_chunks.map DataChunk.chunk_size
      = w.other_chunks.map (fun c => c.chunk_size) := rfl
  rw [heta]
  have hM : (2:Nat) ^ 32 = 4294967296 := by norm_num
  rw [hM]
  omega

/-- The dispatch loop only appends to other_chunks: chunks present before
stay, in position, in front of whatever the loop adds. -/
lemma loadLoop_other_pre (fuel : Nat) :
    ∀ (w : Wave) (fresh : Nat → Nat) (ld : Bool) (s : IStream) (pre : List DataChunk),
      (Wave.loadLoop fuel { w with other_chunks := pre ++ w.other_chunks } fresh ld s).1.other_chunks
        = pre ++ (Wave.loadLoop fuel w fresh ld s).1.other_chunks := by
  induction fuel with
  | zero => intro w fresh ld s pre; simp [Wave.loadLoop]
  | succ n ih =>
    intro w fresh ld s pre
    simp only [Wave.loadLoop]
    split_ifs with hg h2 hf hd hld
    · rfl
    · rfl
    · exact ih { w with fmt_chunk := (w.fmt_chunk.ReadFrom (readLittleEndian s 4).2).1 }
        fresh ld (w.fmt_chunk.ReadFrom (readLittleEndian s 4).2).2 pre
    · exact ih { w with data_chunk := (w.data_chunk.ReadFrom fresh (readLittleEndian s 4).2).1 }
        fresh ld (w.data_chunk.ReadFrom fresh (readLittleEndian s 4).2).2 pre
    · exact ih { w with data_chunk := (w.data_chunk.Skip (readLittleEndian s 4).2).1 }
        fresh ld (w.data_chunk.Skip (readLittleEndian s 4).2).2 pre
    · rw [List.append_assoc]
      exact ih { w with other_chunks := w.other_chunks
            ++ [((DataChunk.mk0 (readLittleEndian s 4).1).ReadFrom fresh (readLittleEndian s 4).2).1] }
        fresh ld ((DataChunk.mk0 (readLittleEndian s 4).1).ReadFrom fresh (readLittleEndian s 4).2).2 pre

/-! Claim theorems. -/

/-- C1: for every Wave and every offset at or past nsamples(), GetSample
returns 0 and SetSample returns the container unchanged — every sample and
every other field untouched, with no error signalled (both functions are
total and silent). -/
theorem getSample_setSample_out_of_range :
    ∀ (w : Wave) (offset : Nat) (value : ℚ), w.nsamples ≤ offset →
      w.GetSample offset = 0 ∧ w.SetSample offset value = w := by
  intro w offset value h
  constructor
  · unfold Wave.GetSample
    rw [if_pos h]
  · unfold Wave.SetSample
    rw [if_pos h]

/-- Witness for C1 at the default container, whose sample count is 0. -/
theorem getSample_setSample_out_of_range_witness :
    Wave.init.nsamples ≤ 0
    ∧ Wave.init.GetSample 0 = 0 ∧ Wave.init.SetSample 0 1 = Wave.init :=
  ⟨by decide, getSample_setSample_out_of_range Wave.init 0 1 (by decide)⟩

/-- C9: nsamples() equals the data size divided by block_align, and is 0
with the division short-circuited whenever either operand is 0 (in the
model Nat division is total, so the equation also holds literally in the
zero cases). -/
theorem nsamples_division_safe :
    ∀ w : Wave,
      w.nsamples = w.data_chunk.chunk_size / w.fmt_chunk.block_align
      ∧ (w.data_chunk.chunk_size = 0 ∨ w.fmt_chunk.block_align = 0 → w.nsamples = 0) := by
  intro w
  unfold Wave.nsamples Wave.bytes_per_sample
  constructor
  · split_ifs with h
    · rcases h with h | h
      · rw [h, Nat.zero_div]
      · rw [h, Nat.div_zero]
    · rfl
  · intro h
    rw [if_pos h]

/-- Witness for C9 at a container with a zero-size data chunk. -/
theorem nsamples_division_safe_witness :
    Wave.init.nsamples = Wave.init.data_chunk.chunk_size / Wave.init.fmt_chunk.block_align
    ∧ (Wave.init.data_chunk.chunk_size = 0 ∨ Wave.init.fmt_chunk.block_align = 0
        → Wave.init.nsamples = 0) :=
  nsamples_division_safe Wave.init

/-- C10: neither the dispatch loop nor the Load helper (run by Load and
LoadMetadata) ever clears other_chunks: every previously stored chunk stays
in its position and newly parsed unrecognized chunks are appended after
them, so repeated loads into one Wave accumulate the extra chunks of every
stream loaded. -/
theorem load_appends_other_chunks :
    (∀ (fuel : Nat) (w : Wave) (fresh : Nat → Nat) (ld : Bool) (s : IStream),
      (Wave.loadLoop fuel w fresh ld s).1.other_chunks
        = w.other_chunks
          ++ (Wave.loadLoop fuel { w with other_chunks := [] } fresh ld s).1.other_chunks)
    ∧ (∀ (w : Wave) (fresh : Nat → Nat) (ld : Bool) (s : IStream),
      (Wave.Load w fresh ld s).1.other_chunks
        = w.other_chunks
          ++ (Wave.Load { w with other_chunks := [] } fresh ld s).1.other_chunks) := by
  constructor
  · intro fuel w fresh ld s
    have h := loadLoop_other_pre fuel { w with other_chunks := [] } fresh ld s w.other_chunks
    simpa using h
  · intro w fresh ld s
    simp only [Wave.Load]
    split_ifs with h1 h2
    · simp
    · simp
    · have h := loadLoop_other_pre
        ((w.riff_chunk.ReadFrom (readLittleEndian s 4).2).2.buf.length + 1)
        { w with riff_chunk := (w.riff_chunk.ReadFrom (readLittleEndian s 4).2).1,
                 other_chunks := [] }
        fresh ld (w.riff_chunk.ReadFrom (readLittleEndian s 4).2).2 w.other_chunks
      simpa using h

/-- Counterexample to C6 as stated: with a data chunk of declared size
2^32 - 16 the recomputed riff size is 28, not the untruncated sum
24 + 4 + 16 + (2^32 - 16) + 0 = 2^32 + 28 — the unsigned 32-bit
accumulator wraps. -/
theorem updateRiffFileSize_overflow_cex :
    wHugeData.UpdateRiffFileSize.riff_chunk.chunk_size = 28
    ∧ (28:Nat) ≠ 24 + 4 + wHugeData.fmt_chunk.chunk_size
        + wHugeData.data_chunk.chunk_size
        + (wHugeData.other_chunks.map (fun c => c.chunk_size)).sum := by
  constructor
  · decide
  · decide

/-- C6 amended: on every Save (and in UpdateRiffFileSize itself) the riff
declared size is recomputed as 24 (three 8-byte headers) + 4 (format-family
tag) + the fmt, data, and extra chunks' declared sizes — the extras' own
8-byte headers excluded — truncated to the unsigned 32-bit accumulator, and
Save writes exactly that value into the second four bytes of its output. -/
theorem riff_size_recompute_formula :
    ∀ w : Wave,
      w.UpdateRiffFileSize.riff_chunk.chunk_size
        = (24 + 4 + w.fmt_chunk.chunk_size + w.data_chunk.chunk_size
            + (w.other_chunks.map (fun c => c.chunk_size)).sum) % 2 ^ 32
      ∧ w.SavePrep.riff_chunk.chunk_size
        = (24 + 4 + w.fmt_chunk.chunk_size + w.data_chunk.chunk_size
            + (w.other_chunks.map (fun c => c.chunk_size)).sum) % 2 ^ 32
      ∧ ∃ rest : List Nat,
          w.Save = leOut CHUNK_TYPE_RIFF 4
            ++ leOut ((24 + 4 + w.fmt_chunk.chunk_size + w.data_chunk.chunk_size
                + (w.other_chunks.map (fun c => c.chunk_size)).sum) % 2 ^ 32) 4
            ++ rest := by
  intro w
  refine ⟨UpdateRiffFileSize_size w, ?_, ?_⟩
  · rw [SavePrep_riff]
    exact UpdateRiffFileSize_size w
  · refine ⟨leOut w.SavePrep.riff_chunk.riff_type 4
      ++ w.SavePrep.fmt_chunk.WriteTo []
      ++ (w.SavePrep.other_chunks.map (fun c => c.WriteTo [])).flatten
      ++ w.SavePrep.data_chunk.WriteTo [], ?_⟩
    rw [Save_eq]
    have hr : w.SavePrep.riff_chunk.WriteTo []
        = leOut CHUNK_TYPE_RIFF 4 ++ leOut w.SavePrep.riff_chunk.chunk_size 4
          ++ leOut w.SavePrep.riff_chunk.riff_type 4 := by
      simp [RiffChunk.WriteTo, chunkWriteTo, writeLittleEndian]
    rw [hr, SavePrep_riff, UpdateRiffFileSize_size]
    simp [List.append_assoc]

/-- Counterexample to C7 as stated: with 8192 channels of 64-bit samples
the stored block_align is 0 (the 16-bit field wraps on 8192 * 8 = 2^16)
while bytes_per_sec becomes 65536, which is not sample_rate times the
recomputed block_align (1 * 0 = 0). -/
theorem updateFmtValues_overflow_cex :
    wManyChannels.UpdateFmtValues.fmt_chunk.block_align = 0
    ∧ wManyChannels.UpdateFmtValues.fmt_chunk.block_align
        ≠ wManyChannels.fmt_chunk.nchannels * (wManyChannels.fmt_chunk.bits_per_sample / 8)
    ∧ wManyChannels.UpdateFmtValues.fmt_chunk.bytes_per_sec = 65536
    ∧ wManyChannels.UpdateFmtValues.fmt_chunk.bytes_per_sec
        ≠ wManyChannels.UpdateFmtValues.fmt_chunk.sample_rate
            * wManyChannels.UpdateFmtValues.fmt_chunk.block_align := by
  refine ⟨by decide, by decide, by decide, by decide⟩

/-- C7 amended: before every Save and at the start of every Resize,
block_align is recomputed as nchannels * (bits_per_sample / 8) truncated to
its 16-bit field, bytes_per_sec as sample_rate * nchannels *
(bits_per_sample / 8) truncated to its 32-bit field, whatever was loaded
from the file; whenever nchannels * (bits_per_sample / 8) fits in 16 bits,
bytes_per_sec equals sample_rate times the recomputed block_align as the
claim states. -/
theorem fmt_values_recompute :
    ∀ (w : Wave) (m : Nat) (fresh : Nat → Nat),
      w.UpdateFmtValues.fmt_chunk.block_align
          = w.fmt_chunk.nchannels * (w.fmt_chunk.bits_per_sample / 8) % 2 ^ 16
      ∧ w.UpdateFmtValues.fmt_chunk.bytes_per_sec
          = w.fmt_chunk.sample_rate * w.fmt_chunk.nchannels
              * (w.fmt_chunk.bits_per_sample / 8) % 2 ^ 32
      ∧ (w.fmt_chunk.nchannels * (w.fmt_chunk.bits_per_sample / 8) < 2 ^ 16 →
          w.UpdateFmtValues.fmt_chunk.bytes_per_sec
            = w.fmt_chunk.sample_rate * w.UpdateFmtValues.fmt_chunk.block_align % 2 ^ 32)
      ∧ (w.Resize m fresh).fmt_chunk = w.UpdateFmtValues.fmt_chunk
      ∧ w.SavePrep.fmt_chunk = w.UpdateFmtValues.fmt_chunk := by
  intro w m fresh
  refine ⟨rfl, rfl, ?_, rfl, rfl⟩
  intro h
  have hba : w.UpdateFmtValues.fmt_chunk.block_align
      = w.fmt_chunk.nchannels * (w.fmt_chunk.bits_per_sample / 8) := by
    show w.fmt_chunk.nchannels * (w.fmt_chunk.bits_per_sample / 8) % 2 ^ 16 = _
    exact Nat.mod_eq_of_lt h
  rw [hba]
  show w.fmt_chunk.sample_rate * w.fmt_chunk.nchannels
      * (w.fmt_chunk.bits_per_sample / 8) % 2 ^ 32 = _
  rw [Nat.mul_assoc]

/-- Witness for C7 at the default container resized to 10 samples. -/
theorem fmt_values_recompute_witness :
    Wave.init.fmt_chunk.nchannels * (Wave.init.fmt_chunk.bits_per_sample / 8) < 2 ^ 16
    ∧ Wave.init.UpdateFmtValues.fmt_chunk.bytes_per_sec
        = Wave.init.fmt_chunk.sample_rate
            * Wave.init.UpdateFmtValues.fmt_chunk.block_align % 2 ^ 32
    ∧ (Wave.init.Resize 10 fresh0).fmt_chunk = Wave.init.UpdateFmtValues.fmt_chunk :=
  ⟨by decide, ((fmt_values_recompute Wave.init 10 fresh0).2.2.1 (by decide)),
    (fmt_values_recompute Wave.init 10 fresh0).2.2.2.1⟩

/-- C4: Save always writes the riff header and tag, the format chunk, every
extra chunk in stored encounter order, and the audio data chunk last; in
the concrete demoStream the "LIST" chunk encountered after the "data" chunk
during Load lands in other_chunks and is re-emitted before the data chunk
in the saved bytes. -/
theorem save_section_order :
    (∀ w : Wave,
      w.Save = w.SavePrep.riff_chunk.WriteTo []
        ++ w.SavePrep.fmt_chunk.WriteTo []
        ++ (w.other_chunks.map (fun c => c.WriteTo [])).flatten
        ++ w.data_chunk.WriteTo [])
    ∧ demoLoaded.other_chunks.map (fun c => c.chunk_type) = [0x5453494c]
    ∧ demoLoaded.Save = demoRiffBytes ++ demoFmtBytes ++ demoListBytes ++ demoDataBytes := by
  refine ⟨?_, by decide, by decide⟩
  intro w
  rw [Save_eq, SavePrep_other, SavePrep_data]

/-- ReAllocData always allocates exactly data_length_ bytes. -/
lemma ReAllocData_data_length (c : DataChunk) (n : Nat) (fresh : Nat → Nat) :
    (c.ReAllocData n fresh).data_.length = (c.ReAllocData n fresh).data_length_ := by
  unfold DataChunk.ReAllocData
  simp only
  split_ifs with h0 hodd
  · simpa using h0.symm
  · simp
  · simp

/-- A read obtains at most the requested number of bytes. -/
lemma readBytes_length_le (s : IStream) (n : Nat) : (s.readBytes n).1.length ≤ n := by
  unfold IStream.readBytes
  split_ifs with hg hn
  · simp
  · simpa using Nat.le_of_not_le hn
  · simp

/-- Counterexample to C3 as stated: reading a chunk that declares 3 payload
bytes from a stream whose alignment pad byte is 7 leaves 7, not 0, as the
final byte of the word-aligned buffer — stream.read overwrites the zero pad
ReAllocData wrote. -/
theorem readFrom_pad_byte_not_zero :
    (DataChunk.init.ReadFrom fresh0 sOddPad).1.chunk_size = 3
    ∧ (DataChunk.init.ReadFrom fresh0 sOddPad).1.data_ = [1, 2, 3, 7]
    ∧ (DataChunk.init.ReadFrom fresh0 sOddPad).1.data_.getD 3 0 ≠ 0 := by
  refine ⟨by decide, by decide, by decide⟩

/-- C3 amended: ReAllocData stores chunk_size = n unrounded, allocates
n rounded up to the next even count (as long as the 32-bit length does not
wrap), and zeroes the final pad byte when n is odd; ReadFrom keeps the
length bookkeeping but fills the whole aligned buffer from the stream, so
the pad byte is the stream's pad byte rather than necessarily zero; WriteTo
then writes exactly the 8 header bytes plus the aligned byte count. -/
theorem reAllocData_alignment_spec :
    (∀ (c : DataChunk) (n : Nat) (fresh : Nat → Nat), n + n % 2 < 2 ^ 32 →
      (c.ReAllocData n fresh).chunk_size = n
      ∧ (c.ReAllocData n fresh).data_length_ = n + n % 2
      ∧ (c.ReAllocData n fresh).data_.length = n + n % 2
      ∧ (n % 2 = 1 → (c.ReAllocData n fresh).data_.getD (n + n % 2 - 1) 0 = 0))
    ∧ (∀ (c : DataChunk) (fresh : Nat → Nat) (s : IStream),
      (c.ReadFrom fresh s).1.chunk_size = (chunkReadSize s).1
      ∧ (c.ReadFrom fresh s).1.data_length_
          = ((chunkReadSize s).1 + (chunkReadSize s).1 % 2) % 2 ^ 32
      ∧ (c.ReadFrom fresh s).1.data_.length = (c.ReadFrom fresh s).1.data_length_
      ∧ ((chunkReadSize s).2.good = true →
          (c.ReadFrom fresh s).1.data_length_ ≤ (chunkReadSize s).2.buf.length →
          (c.ReadFrom fresh s).1.data_
            = (chunkReadSize s).2.buf.take (c.ReadFrom fresh s).1.data_length_))
    ∧ (∀ (c : DataChunk) (out : List Nat), c.data_.length = c.data_length_ →
      (c.WriteTo out).length = out.length + 8 + c.data_length_) := by
  refine ⟨?_, ?_, ?_⟩
  · intro c n fresh h
    have hcs : n % 2 ^ 32 = n := Nat.mod_eq_of_lt (by omega)
    have hdl : (n % 2 ^ 32 + n % 2 ^ 32 % 2) % 2 ^ 32 = n + n % 2 := by
      rw [hcs]
      exact Nat.mod_eq_of_lt h
    refine ⟨?_, ?_, ?_, ?_⟩
    · show n % 2 ^ 32 = n
      exact hcs
    · show (n % 2 ^ 32 + n % 2 ^ 32 % 2) % 2 ^ 32 = n + n % 2
      exact hdl
    · rw [ReAllocData_data_length]
      exact hdl
    · intro hodd
      unfold DataChunk.ReAllocData
      simp only
      rw [hcs]
      have hdl2 : (n + n % 2) % 2 ^ 32 = n + n % 2 := Nat.mod_eq_of_lt h
      rw [hdl2]
      split_ifs with h0
      · omega
      · rw [List.getD_eq_getElem?_getD,
            List.getElem?_set_self (by simp; omega)]
        rfl
  · intro c fresh s
    have hsz : (chunkReadSize s).1 < 2 ^ 32 := leAccum_lt _ 4
    have hmod : (chunkReadSize s).1 % 2 ^ 32 = (chunkReadSize s).1 :=
      Nat.mod_eq_of_lt hsz
    have hdl : (c.ReadFrom fresh s).1.data_length_
        = ((chunkReadSize s).1 + (chunkReadSize s).1 % 2) % 2 ^ 32 := by
      show ((chunkReadSize s).1 % 2 ^ 32 + (chunkReadSize s).1 % 2 ^ 32 % 2) % 2 ^ 32 = _
      rw [hmod]
    have halloc := ReAllocData_data_length c (chunkReadSize s).1 fresh
    have hq := readBytes_length_le (chunkReadSize s).2
      ((c.ReAllocData (chunkReadSize s).1 fresh).data_length_)
    refine ⟨?_, hdl, ?_, ?_⟩
    · show (chunkReadSize s).1 % 2 ^ 32 = _
      exact hmod
    · show (((chunkReadSize s).2.readBytes
          (c.ReAllocData (chunkReadSize s).1 fresh).data_length_).1
          ++ (c.ReAllocData (chunkReadSize s).1 fresh).data_.drop
            ((chunkReadSize s).2.readBytes
              (c.ReAllocData (chunkReadSize s).1 fresh).data_length_).1.length).length
        = (c.ReAllocData (chunkReadSize s).1 fresh).data_length_
      rw [List.length_append, List.length_drop, halloc]
      omega
    · intro hg hle
      have hle' : (c.ReAllocData (chunkReadSize s).1 fresh).data_length_
          ≤ (chunkReadSize s).2.buf.length := hle
      have hread : ((chunkReadSize s).2.readBytes
          (c.ReAllocData (chunkReadSize s).1 fresh).data_length_).1
          = (chunkReadSize s).2.buf.take
            (c.ReAllocData (chunkReadSize s).1 fresh).data_length_ := by
        unfold IStream.readBytes
        rw [if_pos hg, if_pos hle']
      show (((chunkReadSize s).2.readBytes
          (c.ReAllocData (chunkReadSize s).1 fresh).data_length_).1
          ++ (c.ReAllocData (chunkReadSize s).1 fresh).data_.drop
            ((chunkReadSize s).2.readBytes
              (c.ReAllocData (chunkReadSize s).1 fresh).data_length_).1.length)
        = (chunkReadSize s).2.buf.take
            (c.ReAllocData (chunkReadSize s).1 fresh).data_length_
      rw [hread, List.length_take, Nat.min_eq_left hle']
      rw [List.drop_eq_nil_of_le (by rw [halloc])]
      simp
  · intro c out h
    unfold DataChunk.WriteTo chunkWriteTo writeLittleEndian leOut
    simp only [List.length_append, List.length_take, List.length_map,
      List.length_range, h]
    omega

/-- Witness for C3 at length 5 (odd) and at the sOddPad stream. -/
theorem reAllocData_alignment_spec_witness :
    (5 + 5 % 2 < 2 ^ 32
      ∧ (DataChunk.init.ReAllocData 5 fresh0).chunk_size = 5
      ∧ (DataChunk.init.ReAllocData 5 fresh0).data_.length = 5 + 5 % 2
      ∧ (DataChunk.init.ReAllocData 5 fresh0).data_.getD (5 + 5 % 2 - 1) 0 = 0)
    ∧ ((chunkReadSize sOddPad).2.good = true
      ∧ (DataChunk.init.ReadFrom fresh0 sOddPad).1.data_length_
          ≤ (chunkReadSize sOddPad).2.buf.length
      ∧ (DataChunk.init.ReadFrom fresh0 sOddPad).1.data_
          = (chunkReadSize sOddPad).2.buf.take
              (DataChunk.init.ReadFrom fresh0 sOddPad).1.data_length_)
    ∧ ((DataChunk.init.ReAllocData 5 fresh0).data_.length
          = (DataChunk.init.ReAllocData 5 fresh0).data_length_
      ∧ ((DataChunk.init.ReAllocData 5 fresh0).WriteTo []).length
          = ([] : List Nat).length + 8 + (DataChunk.init.ReAllocData 5 fresh0).data_length_) :=
  ⟨⟨by decide,
    (reAllocData_alignment_spec.1 DataChunk.init 5 fresh0 (by decide)).1,
    (reAllocData_alignment_spec.1 DataChunk.init 5 fresh0 (by decide)).2.2.1,
    (reAllocData_alignment_spec.1 DataChunk.init 5 fresh0 (by decide)).2.2.2 (by decide)⟩,
   ⟨by decide, by decide,
    (reAllocData_alignment_spec.2.1 DataChunk.init fresh0 sOddPad).2.2.2 (by decide) (by decide)⟩,
   ⟨by decide,
    reAllocData_alignment_spec.2.2 (DataChunk.init.ReAllocData 5 fresh0) [] (by decide)⟩⟩

/-- Counterexample to C5 as stated: on a stream whose outer marker is not
"RIFF" the Riff Section is not populated from the stream — the declared
size 99 the stream carries is ignored and the riff chunk keeps its default
size 36; only the format-family-mismatch case populates it. -/
theorem load_bad_marker_riff_not_populated :
    (Wave.init.Load fresh0 true sBadMarker).1 = Wave.init
    ∧ (Wave.init.Load fresh0 true sBadMarker).1.riff_chunk.chunk_size = 36
    ∧ (chunkReadSize (readLittleEndian sBadMarker 4).2).1 = 99
    ∧ (36 : Nat) ≠ 99 := by
  refine ⟨by decide, by decide, by decide, by decide⟩

/-- C5 amended: if the outer marker is not the RIFF tag, Load aborts with
the container fully unchanged (everything at defaults when it started
there); if the outer marker matches but the format-family tag read into the
riff chunk is not the WAVE marker, Load aborts with only the riff chunk
populated from the stream and everything else untouched.  Either way a
format error is reported and no other state is written. -/
theorem load_format_mismatch_partial_state :
    ∀ (w : Wave) (fresh : Nat → Nat) (ld : Bool) (s : IStream),
      ((readLittleEndian s 4).1 ≠ CHUNK_TYPE_RIFF →
        Wave.Load w fresh ld s = (w, (readLittleEndian s 4).2))
      ∧ ((readLittleEndian s 4).1 = CHUNK_TYPE_RIFF →
        (w.riff_chunk.ReadFrom (readLittleEndian s 4).2).1.riff_type ≠ RIFF_TYPE_WAVE →
        (Wave.Load w fresh ld s).1
          = { w with riff_chunk := (w.riff_chunk.ReadFrom (readLittleEndian s 4).2).1 }) := by
  intro w fresh ld s
  constructor
  · intro h
    unfold Wave.Load
    rw [if_pos h]
  · intro h1 h2
    unfold Wave.Load
    rw [if_neg (by simpa using h1), if_pos (Or.inl h2)]

/-- Witness for C5: the zero-marker stream leaves everything default, the
RIFF-but-not-WAVE stream populates exactly the riff chunk. -/
theorem load_format_mismatch_partial_state_witness :
    ((readLittleEndian sBadMarker 4).1 ≠ CHUNK_TYPE_RIFF
      ∧ Wave.init.Load fresh0 true sBadMarker = (Wave.init, (readLittleEndian sBadMarker 4).2))
    ∧ ((readLittleEndian sNotWave 4).1 = CHUNK_TYPE_RIFF
      ∧ (Wave.init.riff_chunk.ReadFrom (readLittleEndian sNotWave 4).2).1.riff_type
          ≠ RIFF_TYPE_WAVE
      ∧ (Wave.init.Load fresh0 true sNotWave).1
          = { Wave.init with
              riff_chunk := (Wave.init.riff_chunk.ReadFrom (readLittleEndian sNotWave 4).2).1 }) :=
  ⟨⟨by decide,
    (load_format_mismatch_partial_state Wave.init fresh0 true sBadMarker).1 (by decide)⟩,
   ⟨by decide, by decide,
    (load_format_mismatch_partial_state Wave.init fresh0 true sNotWave).2 (by decide) (by decide)⟩⟩

/-- The channel accumulation loop as a wrapped sum. -/
lemma channelTotal_eq (things : List Nat) (n sz : Nat) (sg : Bool) :
    Wave.channelTotal things n sz sg
      = ((List.range n).map (fun i => Wave.GetValue (things.drop (i * sz)) sz sg)).sum
          % 2 ^ 64 := by
  unfold Wave.channelTotal
  rw [foldl_add_mod _ _ _ _ (by positivity) (by positivity), Nat.zero_add]

/-- The channel total is at most the channel count times the slice maximum. -/
lemma channelTotal_le (things : List Nat) (n sz : Nat) (sg : Bool)
    (h1 : 1 ≤ sz) (h8 : sz ≤ 8) :
    Wave.channelTotal things n sz sg ≤ n * (2 ^ (8 * sz) - 1) := by
  rw [channelTotal_eq]
  refine le_trans (Nat.mod_le _ _) ?_
  have hb := sum_map_le (fun i => Wave.GetValue (things.drop (i * sz)) sz sg)
    (2 ^ (8 * sz) - 1) (List.range n)
    (fun x _ => GetValue_le _ sz sg h1 h8)
  simpa [List.length_range] using hb

/-- C8: GetSample decodes 1-byte slices unsigned and wider slices signed;
the signed decode takes the unsigned read and subtracts max_signed + 1 when
the value exceeds max_signed, otherwise adds max_signed + 1; the channel
average is then mapped through value / max_unsigned * 2 - 1, which always
lands in [-1, 1]. -/
theorem sample_decode_spec :
    (∀ (things : List Nat) (sz : Nat), 1 ≤ sz → sz ≤ 8 →
      Wave.GetValue things sz true
        = (if Wave.GetValue things sz false > Wave.max_signed_value sz
           then Wave.GetValue things sz false - (Wave.max_signed_value sz + 1)
           else Wave.GetValue things sz false + (Wave.max_signed_value sz + 1)))
    ∧ (∀ (w : Wave) (offset : Nat), offset < w.nsamples →
      w.GetSample offset
        = (if w.bytes_per_sample_slice = 1
           then Wave.TakeChannelAvg (w.data_chunk.data_.drop (offset * w.bytes_per_sample))
             w.fmt_chunk.nchannels w.bytes_per_sample_slice false
           else Wave.TakeChannelAvg (w.data_chunk.data_.drop (offset * w.bytes_per_sample))
             w.fmt_chunk.nchannels w.bytes_per_sample_slice true))
    ∧ (∀ (things : List Nat) (n sz : Nat) (sg : Bool), 1 ≤ n → 1 ≤ sz → sz ≤ 8 →
      Wave.TakeChannelAvg things n sz sg
        = (Wave.channelTotal things n sz sg : ℚ) / (n : ℚ)
            / (Wave.max_thing_value sz : ℚ) * 2 - 1
      ∧ -1 ≤ Wave.TakeChannelAvg things n sz sg
      ∧ Wave.TakeChannelAvg things n sz sg ≤ 1) := by
  refine ⟨?_, ?_, ?_⟩
  · intro things sz h1 h8
    have hfalse : Wave.GetValue things sz false = leAccum things sz := rfl
    rw [hfalse]
    show Wave.signedMunge sz (leAccum things sz) = _
    unfold Wave.signedMunge
    split_ifs with hgt
    · rfl
    · have hms := max_signed_value_eq sz h1 h8
      have hraw := leAccum_lt things sz
      have hsplit : 2 ^ (8 * sz) = 2 * 2 ^ (8 * sz - 1) := by
        rw [← pow_succ']
        congr 1
        omega
      have h64 : 2 ^ (8 * sz) ≤ 2 ^ 64 := Nat.pow_le_pow_right (by omega) (by omega)
      rw [hms] at hgt
      apply Nat.mod_eq_of_lt
      rw [hms]
      omega
  · intro w offset h
    unfold Wave.GetSample
    rw [if_neg (Nat.not_le_of_lt h)]
  · intro things n sz sg hn h1 h8
    refine ⟨rfl, ?_, ?_⟩
    all_goals
      have htot := channelTotal_le things n sz sg h1 h8
      have hmax : (Wave.max_thing_value sz : ℚ) = ((2 ^ (8 * sz) - 1 : Nat) : ℚ) := by
        rw [max_thing_value_eq]
      have hmaxpos : (0:ℚ) < (Wave.max_thing_value sz : ℚ) := by
        rw [hmax]
        have : (1:Nat) ≤ 2 ^ (8 * sz) - 1 := by
          have := Nat.two_pow_pos (8 * sz)
          have h2 : (2:Nat) ^ 1 ≤ 2 ^ (8 * sz) := Nat.pow_le_pow_right (by omega) (by omega)
          omega
        exact_mod_cast Nat.lt_of_lt_of_le (by omega) this
      have hnpos : (0:ℚ) < (n : ℚ) := by exact_mod_cast hn
      have havg0 : (0:ℚ) ≤ (Wave.channelTotal things n sz sg : ℚ) / (n : ℚ) := by positivity
      have havg1 : (Wave.channelTotal things n sz sg : ℚ) / (n : ℚ)
          ≤ (Wave.max_thing_value sz : ℚ) := by
        rw [div_le_iff₀ hnpos, hmax]
        have : (Wave.channelTotal things n sz sg : ℚ) ≤ ((n * (2 ^ (8 * sz) - 1) : Nat) : ℚ) :=
          Nat.cast_le.mpr htot
        calc (Wave.channelTotal things n sz sg : ℚ)
            ≤ ((n * (2 ^ (8 * sz) - 1) : Nat) : ℚ) := this
          _ = ((2 ^ (8 * sz) - 1 : Nat) : ℚ) * (n : ℚ) := by push_cast; ring
      have hr0 : (0:ℚ) ≤ (Wave.channelTotal things n sz sg : ℚ) / (n : ℚ)
          / (Wave.max_thing_value sz : ℚ) := by positivity
      have hr1 : (Wave.channelTotal things n sz sg : ℚ) / (n : ℚ)
          / (Wave.max_thing_value sz : ℚ) ≤ 1 := by
        rw [div_le_one hmaxpos]
        exact havg1
      show _
    · show -1 ≤ (Wave.channelTotal things n sz sg : ℚ) / (n : ℚ)
          / (Wave.max_thing_value sz : ℚ) * 2 - 1
      linarith
    · show (Wave.channelTotal things n sz sg : ℚ) / (n : ℚ)
          / (Wave.max_thing_value sz : ℚ) * 2 - 1 ≤ 1
      linarith

/-- Witness for C8: a 2-byte slice with bytes 7, 200 (raw 51207, above the
signed maximum), the 2-channel 16-bit container at offset 0, and a single
2-byte channel. -/
theorem sample_decode_spec_witness :
    ((1:Nat) ≤ 2 ∧ (2:Nat) ≤ 8
      ∧ Wave.GetValue [7, 200] 2 true
          = (if Wave.GetValue [7, 200] 2 false > Wave.max_signed_value 2
             then Wave.GetValue [7, 200] 2 false - (Wave.max_signed_value 2 + 1)
             else Wave.GetValue [7, 200] 2 false + (Wave.max_signed_value 2 + 1)))
    ∧ (0 < wTwoChannel.nsamples
      ∧ wTwoChannel.GetSample 0
          = (if wTwoChannel.bytes_per_sample_slice = 1
             then Wave.TakeChannelAvg
               (wTwoChannel.data_chunk.data_.drop (0 * wTwoChannel.bytes_per_sample))
               wTwoChannel.fmt_chunk.nchannels wTwoChannel.bytes_per_sample_slice false
             else Wave.TakeChannelAvg
               (wTwoChannel.data_chunk.data_.drop (0 * wTwoChannel.bytes_per_sample))
               wTwoChannel.fmt_chunk.nchannels wTwoChannel.bytes_per_sample_slice true))
    ∧ (-1 ≤ Wave.TakeChannelAvg [7, 200] 1 2 true
      ∧ Wave.TakeChannelAvg [7, 200] 1 2 true ≤ 1) :=
  ⟨⟨by decide, by decide,
    sample_decode_spec.1 [7, 200] 2 (by decide) (by decide)⟩,
   ⟨by decide,
    sample_decode_spec.2.1 wTwoChannel 0 (by decide)⟩,
   ⟨(sample_decode_spec.2.2 [7, 200] 1 2 true (by decide) (by decide) (by decide)).2.1,
    (sample_decode_spec.2.2 [7, 200] 1 2 true (by decide) (by decide) (by decide)).2.2⟩⟩

/-- For normalized inputs the scaled sample value fits in the slice width. -/
lemma encRawValue_le (v : ℚ) (sz : Nat) (hv2 : v ≤ 1) :
    Wave.encRawValue v sz ≤ 2 ^ (8 * sz) - 1 := by
  unfold Wave.encRawValue truncToU64
  have hmax : (Wave.max_thing_value sz : ℚ) = ((2 ^ (8 * sz) - 1 : Nat) : ℚ) := by
    rw [max_thing_value_eq]
  have hq : (v + 1) / 2 * (Wave.max_thing_value sz : ℚ) ≤ ((2 ^ (8 * sz) - 1 : Nat) : ℚ) := by
    rw [hmax]
    have h01 : (v + 1) / 2 ≤ 1 := by linarith
    have h0 : (0:ℚ) ≤ ((2 ^ (8 * sz) - 1 : Nat) : ℚ) := by positivity
    calc (v + 1) / 2 * ((2 ^ (8 * sz) - 1 : Nat) : ℚ)
        ≤ 1 * ((2 ^ (8 * sz) - 1 : Nat) : ℚ) := mul_le_mul_of_nonneg_right h01 h0
      _ = ((2 ^ (8 * sz) - 1 : Nat) : ℚ) := one_mul _
  have hfloor : ⌊(v + 1) / 2 * (Wave.max_thing_value sz : ℚ)⌋ ≤ ((2 ^ (8 * sz) - 1 : Nat) : Int) := by
    calc ⌊(v + 1) / 2 * (Wave.max_thing_value sz : ℚ)⌋
        ≤ ⌊((2 ^ (8 * sz) - 1 : Nat) : ℚ)⌋ := Int.floor_le_floor hq
      _ = ((2 ^ (8 * sz) - 1 : Nat) : Int) := Int.floor_natCast _
  refine le_trans (Nat.mod_le _ _) ?_
  exact Int.toNat_le.mpr hfloor

/-- Core of the multi-channel round trip: writing a normalized value into
both channels of a 2-channel sample and decoding the very same slice group
yields the quantized value exactly — the average of the two identical
encoded slices is the encoded value itself. -/
lemma roundtrip_core (v : ℚ) (data : List Nat) (base sz : Nat) (sg : Bool)
    (h1 : 1 ≤ sz) (h7 : sz ≤ 7)
    (ht0 : Wave.encRawValue v sz ≤ 2 ^ (8 * sz) - 1)
    (hlen : base + 2 * sz ≤ data.length) :
    Wave.TakeChannelAvg ((Wave.PutChannelAvg v data base 2 sz sg).drop base) 2 sz sg
      = (Wave.encRawValue v sz : ℚ) / (Wave.max_thing_value sz : ℚ) * 2 - 1 := by
  have h8 : sz ≤ 8 := by omega
  set t0 := Wave.encRawValue v sz with ht0def
  set t1 := if sg then Wave.signedMunge sz t0 else t0 with ht1def
  have ht1le : t1 ≤ 2 ^ (8 * sz) - 1 := by
    cases sg
    · simpa [ht1def] using ht0
    · simp only [ht1def, if_true]
      exact signedMunge_le sz t0 h1 h8 ht0
  have hput : Wave.PutChannelAvg v data base 2 sz sg
      = Wave.putBytes (Wave.putBytes data (base + 0 * sz) t1 sz) (base + 1 * sz) t1 sz := by
    unfold Wave.PutChannelAvg
    rw [show List.range 2 = [0, 1] from rfl]
    rfl
  have hDlen : (Wave.PutChannelAvg v data base 2 sz sg).length = data.length := by
    rw [hput, putBytes_length, putBytes_length]
  have hdig : ∀ c j, c < 2 → j < sz →
      (Wave.PutChannelAvg v data base 2 sz sg).getD (base + c * sz + j) 0
        = t1 / 2 ^ (8 * j) % 256 := by
    intro c j hc hj
    rw [hput]
    interval_cases c
    · rw [putBytes_getD_outside _ _ _ _ _ (Or.inl (by omega))]
      rw [putBytes_getD_inside _ _ _ _ _ hj (by omega)]
      rw [Nat.shiftRight_eq_div_pow]
    · rw [putBytes_getD_inside _ _ _ _ _ hj (by rw [putBytes_length]; omega)]
      rw [Nat.shiftRight_eq_div_pow]
  have ht1mod : t1 % 2 ^ (8 * sz) = t1 := by
    have := Nat.two_pow_pos (8 * sz)
    exact Nat.mod_eq_of_lt (by omega)
  have hchan : ∀ c, c < 2 →
      Wave.GetValue (((Wave.PutChannelAvg v data base 2 sz sg).drop base).drop (c * sz)) sz sg
        = t0 := by
    intro c hc
    have hacc : leAccum (((Wave.PutChannelAvg v data base 2 sz sg).drop base).drop (c * sz)) sz
        = t1 % 2 ^ (8 * sz) := by
      apply leAccum_digits
      intro j hj
      rw [List.drop_drop, getD_drop]
      exact hdig c j hc hj
    unfold Wave.GetValue
    rw [hacc, ht1mod]
    cases sg
    · simp [ht1def]
    · simp only [ht1def, if_true]
      exact signedMunge_involution sz t0 h1 h8 ht0
  have h56 : (2:Nat) ^ (8 * sz) ≤ 2 ^ 56 := Nat.pow_le_pow_right (by omega) (by omega)
  have ht0lt : t0 < 2 ^ 56 := by omega
  unfold Wave.TakeChannelAvg Wave.channelTotal
  rw [show List.range 2 = [0, 1] from rfl]
  simp only [List.foldl_cons, List.foldl_nil]
  rw [hchan 0 (by omega), hchan 1 (by omega)]
  rw [Nat.zero_add, Nat.mod_eq_of_lt (by norm_num; omega), Nat.mod_eq_of_lt (by norm_num; omega)]
  have hcast : ((t0 + t0 : Nat) : ℚ) = 2 * (t0 : ℚ) := by push_cast; ring
  rw [hcast]
  have h2 : ((2 : Nat) : ℚ) = 2 := by norm_num
  rw [h2]
  ring

/-- GetSample on a container whose buffer alone was rewritten. -/
lemma GetSample_setData (w : Wave) (d : List Nat) (offset : Nat) :
    ({ w with data_chunk := { w.data_chunk with data_ := d } } : Wave).GetSample offset
      = if w.nsamples ≤ offset then 0
        else if w.bytes_per_sample_slice = 1
          then Wave.TakeChannelAvg (d.drop (offset * w.bytes_per_sample))
            w.fmt_chunk.nchannels w.bytes_per_sample_slice false
          else Wave.TakeChannelAvg (d.drop (offset * w.bytes_per_sample))
            w.fmt_chunk.nchannels w.bytes_per_sample_slice true := rfl

/-- SetSample followed by GetSample at an in-range offset reduces to the
channel codec on the rewritten buffer. -/
lemma SetSample_GetSample_eq (w : Wave) (i : Nat) (v : ℚ) (hoff : i < w.nsamples) :
    (w.SetSample i v).GetSample i
      = (if w.bytes_per_sample_slice = 1
         then Wave.TakeChannelAvg
           ((Wave.PutChannelAvg v w.data_chunk.data_ (i * w.bytes_per_sample)
               w.fmt_chunk.nchannels w.bytes_per_sample_slice false).drop
             (i * w.bytes_per_sample))
           w.fmt_chunk.nchannels w.bytes_per_sample_slice false
         else Wave.TakeChannelAvg
           ((Wave.PutChannelAvg v w.data_chunk.data_ (i * w.bytes_per_sample)
               w.fmt_chunk.nchannels w.bytes_per_sample_slice true).drop
             (i * w.bytes_per_sample))
           w.fmt_chunk.nchannels w.bytes_per_sample_slice true) := by
  unfold Wave.SetSample
  rw [if_neg (Nat.not_le_of_lt hoff)]
  simp only []
  by_cases h : w.bytes_per_sample_slice = 1
  · rw [if_pos h, if_pos h, GetSample_setData,
      if_neg (Nat.not_le_of_lt hoff), if_pos h]
  · rw [if_neg h, if_neg h, GetSample_setData,
      if_neg (Nat.not_le_of_lt hoff), if_neg h]

/-- Counterexample to C2 as stated: on the 2-channel 16-bit container,
set_sample(0, 1/2) followed by get_sample(0) returns 32767/65535, not 1/2 —
the scaling to the 16-bit range truncates 49151.25 to 49151, so the round
trip returns the quantized value, not v itself. -/
theorem set_get_roundtrip_not_exact :
    wTwoChannel.fmt_chunk.nchannels = 2
    ∧ 0 < wTwoChannel.nsamples
    ∧ (wTwoChannel.SetSample 0 (1/2)).GetSample 0 = 32767 / 65535
    ∧ (wTwoChannel.SetSample 0 (1/2)).GetSample 0 ≠ 1 / 2 := by
  refine ⟨by decide, by decide, by decide!, by decide!⟩

/-- C2 amended: for a coherent 2-channel Format Section (any slice width up
to 7 bytes) and any in-range offset, set_sample(i, v) with normalized v
followed by get_sample(i) returns the quantized value
trunc((v+1)/2 * max_unsigned) / max_unsigned * 2 - 1 exactly: both channel
slices receive the identical encoded value, so the channel average recovers
the written encoded value exactly, and the result equals v itself precisely
when (v+1)/2 * max_unsigned is already an integer. -/
theorem two_channel_roundtrip_quantized :
    ∀ (w : Wave) (i : Nat) (v : ℚ) (sz : Nat),
      w.fmt_chunk.nchannels = 2 →
      w.bytes_per_sample_slice = sz →
      1 ≤ sz → sz ≤ 7 →
      w.fmt_chunk.block_align = 2 * sz →
      w.data_chunk.chunk_size ≤ w.data_chunk.data_.length →
      i < w.nsamples →
      -1 ≤ v → v ≤ 1 →
      (w.SetSample i v).GetSample i
        = (Wave.encRawValue v sz : ℚ) / (Wave.max_thing_value sz : ℚ) * 2 - 1
      ∧ ((v + 1) / 2 * (Wave.max_thing_value sz : ℚ) = (Wave.encRawValue v sz : ℚ) →
          (w.SetSample i v).GetSample i = v) := by
  intro w i v sz hch hsz h1 h7 hba hlen hoff hv1 hv2
  have ht0 : Wave.encRawValue v sz ≤ 2 ^ (8 * sz) - 1 := encRawValue_le v sz hv2
  have hbps : w.bytes_per_sample = 2 * sz := hba
  have hoff2 : i < w.data_chunk.chunk_size / (2 * sz) := by
    unfold Wave.nsamples at hoff
    split_ifs at hoff with h
    · omega
    · rwa [hbps] at hoff
  have hin : (i + 1) * (2 * sz) ≤ w.data_chunk.chunk_size := by
    calc (i + 1) * (2 * sz) ≤ w.data_chunk.chunk_size / (2 * sz) * (2 * sz) :=
          Nat.mul_le_mul_right _ hoff2
      _ ≤ w.data_chunk.chunk_size := Nat.div_mul_le_self _ _
  have hexp : (i + 1) * (2 * sz) = i * (2 * sz) + 2 * sz := by ring
  have hbase : i * w.bytes_per_sample + 2 * sz ≤ w.data_chunk.data_.length := by
    rw [hbps]
    omega
  have hmain : (w.SetSample i v).GetSample i
      = (Wave.encRawValue v sz : ℚ) / (Wave.max_thing_value sz : ℚ) * 2 - 1 := by
    rw [SetSample_GetSample_eq w i v hoff]
    by_cases hs : w.bytes_per_sample_slice = 1
    · rw [if_pos hs, hch, hsz]
      exact roundtrip_core v _ _ sz false h1 h7 ht0 hbase
    · rw [if_neg hs, hch, hsz]
      exact roundtrip_core v _ _ sz true h1 h7 ht0 hbase
  refine ⟨hmain, fun hq => ?_⟩
  rw [hmain, ← hq]
  have hmaxne : (Wave.max_thing_value sz : ℚ) ≠ 0 := by
    rw [max_thing_value_eq]
    have h2 : (2:Nat) ^ 1 ≤ 2 ^ (8 * sz) := Nat.pow_le_pow_right (by omega) (by omega)
    have hpos : (0:Nat) < 2 ^ (8 * sz) - 1 := by omega
    exact ne_of_gt (by exact_mod_cast hpos)
  rw [mul_div_cancel_right₀ _ hmaxne]
  ring

/-- Witness for C2 at the 2-channel 16-bit container with v = 1, where the
scaled value 65535 is exact, so the round trip returns 1 itself. -/
theorem two_channel_roundtrip_quantized_witness :
    (wTwoChannel.fmt_chunk.nchannels = 2
      ∧ wTwoChannel.bytes_per_sample_slice = 2
      ∧ (1:Nat) ≤ 2 ∧ (2:Nat) ≤ 7
      ∧ wTwoChannel.fmt_chunk.block_align = 2 * 2
      ∧ wTwoChannel.data_chunk.chunk_size ≤ wTwoChannel.data_chunk.data_.length
      ∧ 0 < wTwoChannel.nsamples
      ∧ (-1:ℚ) ≤ 1 ∧ (1:ℚ) ≤ 1)
    ∧ (wTwoChannel.SetSample 0 1).GetSample 0
        = (Wave.encRawValue 1 2 : ℚ) / (Wave.max_thing_value 2 : ℚ) * 2 - 1
    ∧ (wTwoChannel.SetSample 0 1).GetSample 0 = 1 :=
  ⟨⟨by decide, by decide, by decide, by decide, by decide, by decide, by decide,
    by decide, by decide⟩,
   (two_channel_roundtrip_quantized wTwoChannel 0 1 2 (by decide) (by decide)
     (by decide) (by decide) (by decide) (by decide) (by decide) (by decide) (by decide)).1,
   (two_channel_roundtrip_quantized wTwoChannel 0 1 2 (by decide) (by decide)
     (by decide) (by decide) (by decide) (by decide) (by decide) (by decide) (by decide)).2
     (by decide!)⟩
